import Mathlib

/-!
Verification of the Modbus TCP stack (wire codec, transport framing, client
send loop, server dispatch, connection pool accounting).

Bytes are modelled as `Nat` values; every write of a machine byte or u16
is made explicit with `% 256` or a big-endian split, mirroring the Go
source (`binary.BigEndian.PutUint16`, `byte(...)` casts).
-/

namespace ModbusProof

/-- Big-endian encoding of the low 16 bits of a value, as
`binary.BigEndian.PutUint16` writes them: high byte `v >> 8`, low byte
`byte(v)`. -/
def u16be (v : Nat) : List Nat :=
  [v / 256 % 256, v % 256]

/-- A Modbus TCP frame: the four MBAP header fields plus the PDU bytes.
Mirrors `MBAPHeader` + `Frame` from `protocol.go`. -/
structure Frame where
  transactionID : Nat
  protocolID : Nat
  length : Nat
  unitID : Nat
  pdu : List Nat
deriving Repr, DecidableEq

/-- `Frame.Encode` from `protocol.go`: the Length field is overwritten with
`uint16(len(PDU) + 1)`, then the 7 header bytes are emitted followed by the
PDU bytes. -/
def Frame.Encode (f : Frame) : List Nat :=
  u16be f.transactionID ++ u16be f.protocolID ++
    u16be ((f.pdu.length + 1) % 65536) ++ [f.unitID % 256] ++ f.pdu

/-- `Frame.Decode` from `protocol.go`: fail if fewer than 7 bytes; decode the
header fields; fail if the declared PDU length `Length - 1` is negative
(i.e. the Length field is 0); fail if the buffer is shorter than
`7 + (Length - 1)`; otherwise copy out the PDU.  Note: this function checks
neither the ProtocolID field nor the 253-byte PDU bound (those checks live
in `ReadFrame`). -/
def Frame.Decode (data : List Nat) : Except String Frame :=
  match data with
  | b0 :: b1 :: b2 :: b3 :: b4 :: b5 :: b6 :: rest =>
    if b4 * 256 + b5 = 0 then
      Except.error "invalid length field"
    else if rest.length < (b4 * 256 + b5) - 1 then
      Except.error "incomplete frame"
    else
      Except.ok
        { transactionID := b0 * 256 + b1
          protocolID := b2 * 256 + b3
          length := b4 * 256 + b5
          unitID := b6
          pdu := rest.take ((b4 * 256 + b5) - 1) }
  | _ => Except.error "frame too short"

/-- The Length field as read from offsets 4-5 of a raw buffer. -/
def frameLenField (data : List Nat) : Nat :=
  data.getD 4 0 * 256 + data.getD 5 0

/-- Errors returned by the PDU builders of `protocol.go`. -/
inductive BuildErr where
  | invalidQuantity
  | invalidAddress
deriving Repr, DecidableEq

/-- `BuildReadCoilsPDU` from `protocol.go`: reject a quantity outside
`[1, 2000]`, then reject `addr + qty > 65536`, otherwise emit
`[0x01, addr_be, qty_be]`. -/
def BuildReadCoilsPDU (addr qty : Nat) : Except BuildErr (List Nat) :=
  if qty < 1 ∨ qty > 2000 then
    Except.error BuildErr.invalidQuantity
  else if addr + qty > 65536 then
    Except.error BuildErr.invalidAddress
  else
    Except.ok (1 :: u16be addr ++ u16be qty)

theorem u16be_recombine (v : Nat) (h : v < 65536) :
    v / 256 % 256 * 256 + v % 256 = v := by
  omega

/-- Claim C1: for every frame whose Length field equals `1 + |PDU|`, whose
ProtocolID is 0 and whose PDU length lies in `[1, 253]` (fields in their
machine-integer ranges), decoding the bytes produced by `Frame.Encode`
returns a frame equal to the original. -/
theorem frame_encode_decode_roundtrip (f : Frame)
    (htx : f.transactionID < 65536) (hp : f.protocolID = 0)
    (hlen : f.length = f.pdu.length + 1) (hu : f.unitID < 256)
    (hlo : 1 ≤ f.pdu.length) (hhi : f.pdu.length ≤ 253) :
    Frame.Decode (Frame.Encode f) = Except.ok f := by
  rcases f with ⟨tx, proto, len, uid, pdu⟩
  simp only at htx hp hlen hu hlo hhi
  have hmod : (pdu.length + 1) % 65536 = pdu.length + 1 :=
    Nat.mod_eq_of_lt (by omega)
  simp only [Frame.Encode, u16be, hmod, hp, List.cons_append, List.nil_append,
    Frame.Decode]
  have hlen16 : (pdu.length + 1) / 256 % 256 * 256 + (pdu.length + 1) % 256
      = pdu.length + 1 := u16be_recombine _ (by omega)
  rw [hlen16]
  have hne : ¬ (pdu.length + 1 = 0) := by omega
  have hnottrunc : ¬ (pdu.length < pdu.length + 1 - 1) := by omega
  simp only [hne, if_false, hnottrunc]
  have htx2 : tx / 256 % 256 * 256 + tx % 256 = tx := u16be_recombine _ htx
  have hu2 : uid % 256 = uid := Nat.mod_eq_of_lt hu
  have htake : pdu.take (pdu.length + 1 - 1) = pdu := by
    simp
  simp [htx2, hu2, htake, hlen, hp]

/-- Witness for claim C1 at a concrete frame. -/
theorem frame_encode_decode_roundtrip_witness :
    Frame.Decode (Frame.Encode ⟨7, 0, 4, 17, [3, 0, 0]⟩)
      = Except.ok ⟨7, 0, 4, 17, [3, 0, 0]⟩ :=
  frame_encode_decode_roundtrip ⟨7, 0, 4, 17, [3, 0, 0]⟩
    (by decide) (by decide) (by decide) (by decide) (by decide) (by decide)

set_option maxRecDepth 4000 in
/-- Counterexample for claim C3 as stated: `Frame.Decode` accepts a buffer
with a non-zero ProtocolID, a buffer whose declared PDU length is 0, and a
buffer whose declared PDU length is 300 > 253 — in all three cases the
claim demands an error. -/
theorem frame_decode_no_protocol_or_bound_check :
    Frame.Decode [0, 0, 0, 1, 0, 2, 1, 0]
      = Except.ok ⟨0, 1, 2, 1, [0]⟩ ∧
    Frame.Decode [0, 0, 0, 0, 0, 1, 9]
      = Except.ok ⟨0, 0, 1, 9, []⟩ ∧
    Frame.Decode ([0, 0, 0, 0, 1, 45, 9] ++ List.replicate 300 6)
      = Except.ok ⟨0, 0, 301, 9, List.replicate 300 6⟩ := by
  refine ⟨rfl, rfl, ?_⟩
  rfl

/-- Claim C3 (amended): `Frame.Decode` on a raw buffer fails exactly when
the buffer is shorter than 7 bytes, or the Length field is 0, or the buffer
is shorter than `6 + Length`; it performs no ProtocolID check and no upper
bound check on the declared PDU length. -/
theorem frame_decode_ok_iff (data : List Nat) :
    (∃ f, Frame.Decode data = Except.ok f) ↔
      (7 ≤ data.length ∧ 1 ≤ frameLenField data ∧
        6 + frameLenField data ≤ data.length) := by
  match data with
  | b0 :: b1 :: b2 :: b3 :: b4 :: b5 :: b6 :: rest =>
    have hfield : frameLenField (b0 :: b1 :: b2 :: b3 :: b4 :: b5 :: b6 :: rest)
        = b4 * 256 + b5 := rfl
    rw [hfield]
    simp only [Frame.Decode, List.length_cons]
    constructor
    · rintro ⟨f, hf⟩
      by_cases h0 : b4 * 256 + b5 = 0
      · simp [h0] at hf
      · by_cases h1 : rest.length < (b4 * 256 + b5) - 1
        · simp [h0, h1] at hf
        · omega
    · intro h
      have h0 : ¬ (b4 * 256 + b5 = 0) := by omega
      have h1 : ¬ (rest.length < (b4 * 256 + b5) - 1) := by omega
      simp [h0, h1]
  | [] => simp [Frame.Decode, frameLenField]
  | [b0] => simp [Frame.Decode, frameLenField]
  | [b0, b1] => simp [Frame.Decode, frameLenField]
  | [b0, b1, b2] => simp [Frame.Decode, frameLenField]
  | [b0, b1, b2, b3] => simp [Frame.Decode, frameLenField]
  | [b0, b1, b2, b3, b4] => simp [Frame.Decode, frameLenField]
  | [b0, b1, b2, b3, b4, b5] => simp [Frame.Decode, frameLenField]

/-- Claim C8: `BuildReadCoilsPDU` returns InvalidQuantity exactly when the
quantity is outside `[1, 2000]`, InvalidAddress exactly when the quantity is
in range but `addr + qty > 65536`, and otherwise the 5-byte PDU
`[0x01, addr_hi, addr_lo, qty_hi, qty_lo]`. -/
theorem buildReadCoilsPDU_spec (addr qty : Nat)
    (ha : addr < 65536) (hq : qty < 65536) :
    (BuildReadCoilsPDU addr qty = Except.error BuildErr.invalidQuantity ↔
      (qty < 1 ∨ 2000 < qty)) ∧
    (BuildReadCoilsPDU addr qty = Except.error BuildErr.invalidAddress ↔
      (1 ≤ qty ∧ qty ≤ 2000 ∧ 65536 < addr + qty)) ∧
    (1 ≤ qty → qty ≤ 2000 → addr + qty ≤ 65536 →
      BuildReadCoilsPDU addr qty
        = Except.ok [1, addr / 256, addr % 256, qty / 256, qty % 256]) := by
  have ha2 : addr / 256 % 256 = addr / 256 := by omega
  have hq2 : qty / 256 % 256 = qty / 256 := by omega
  by_cases h1 : qty < 1 ∨ qty > 2000
  · have he : BuildReadCoilsPDU addr qty = Except.error BuildErr.invalidQuantity := by
      unfold BuildReadCoilsPDU
      rw [if_pos h1]
    refine ⟨?_, ?_, ?_⟩ <;> simp [he] <;> omega
  · by_cases h2 : addr + qty > 65536
    · have he : BuildReadCoilsPDU addr qty = Except.error BuildErr.invalidAddress := by
        unfold BuildReadCoilsPDU
        rw [if_neg h1, if_pos h2]
      refine ⟨?_, ?_, ?_⟩ <;> simp [he] <;> omega
    · have he : BuildReadCoilsPDU addr qty
          = Except.ok [1, addr / 256, addr % 256, qty / 256, qty % 256] := by
        unfold BuildReadCoilsPDU
        rw [if_neg h1, if_neg h2]
        simp [u16be, ha2, hq2]
      refine ⟨?_, ?_, ?_⟩ <;> simp [he] <;> omega

/-- Witness for claim C8 at `addr = 65530`, `qty = 8`. -/
theorem buildReadCoilsPDU_spec_witness :
    (BuildReadCoilsPDU 65530 8 = Except.error BuildErr.invalidAddress) ∧
    (BuildReadCoilsPDU 2 8
      = Except.ok [1, 2 / 256, 2 % 256, 8 / 256, 8 % 256]) := by
  constructor
  · exact ((buildReadCoilsPDU_spec 65530 8 (by decide) (by decide)).2.1).mpr
      (by decide)
  · exact (buildReadCoilsPDU_spec 2 8 (by decide) (by decide)).2.2
      (by decide) (by decide) (by decide)

/-- One step of the coil-packing loops of `protocol.go`
(`BuildWriteMultipleCoilsPDU`) and of the server response builder
(`handleReadCoils`): set bit `i % 8` of byte `i / 8`
(`pdu[off+i/8] |= 1 << (i % 8)`). -/
def setCoilBit (bytes : List Nat) (i : Nat) : List Nat :=
  bytes.set (i / 8) (bytes.getD (i / 8) 0 ||| 1 <<< (i % 8))

/-- The packing loop `for i, v := range values { if v { ... |= 1 << (i%8) } }`
with explicit running index. -/
def packCoilsLoop : Nat → List Bool → List Nat → List Nat
  | _, [], bytes => bytes
  | i, v :: rest, bytes =>
    packCoilsLoop (i + 1) rest (if v then setCoilBit bytes i else bytes)

/-- LSB-first bit packing of a boolean block into `(len+7)/8` bytes, exactly
as both `BuildWriteMultipleCoilsPDU` and the server read-coils response
builder do it (zero-initialised byte array, then the packing loop). -/
def packCoils (values : List Bool) : List Nat :=
  packCoilsLoop 0 values (List.replicate ((values.length + 7) / 8) 0)

/-- `BuildWriteMultipleCoilsPDU` from `protocol.go`:
`[0x0F, addr_be, qty_be, byte_count, packed bits]`. -/
def BuildWriteMultipleCoilsPDU (addr : Nat) (values : List Bool) :
    Except BuildErr (List Nat) :=
  if values.length < 1 ∨ values.length > 2000 then
    Except.error BuildErr.invalidQuantity
  else if addr + values.length > 65536 then
    Except.error BuildErr.invalidAddress
  else
    Except.ok (15 :: u16be addr ++ u16be values.length ++
      ((values.length + 7) / 8 % 256 :: packCoils values))

/-- The coils-response PDU shape produced by the server (`handleReadCoils`):
`[fc, byte_count, packed bits]` with `byte_count = (qty+7)/8`. -/
def coilsResponsePDU (fc : Nat) (values : List Bool) : List Nat :=
  fc :: (values.length + 7) / 8 % 256 :: packCoils values

/-- `ParseCoilsResponse` from `protocol.go`: require at least 2 bytes, require
the byte-count field to equal `(qty+7)/8` and the PDU to be long enough, then
unpack exactly `qty` bits, bit `i % 8` of byte `2 + i/8`. -/
def ParseCoilsResponse (pdu : List Nat) (qty : Nat) :
    Except String (List Bool) :=
  if pdu.length < 2 then
    Except.error "response too short"
  else if pdu.getD 1 0 ≠ (qty + 7) / 8 ∨ pdu.length < 2 + pdu.getD 1 0 then
    Except.error "invalid byte count"
  else
    Except.ok ((List.range qty).map (fun i =>
      pdu.getD (2 + i / 8) 0 &&& 1 <<< (i % 8) != 0))

theorem and_shift_bne (x k : Nat) :
    (x &&& 1 <<< k != 0) = Nat.testBit x k := by
  rw [Nat.shiftLeft_eq, one_mul]
  cases h : Nat.testBit x k with
  | false =>
    have hz : x &&& 2 ^ k = 0 := by
      apply Nat.eq_of_testBit_eq
      intro i
      rw [Nat.testBit_and, Nat.zero_testBit]
      by_cases hik : k = i
      · subst hik
        simp [h]
      · simp [Nat.testBit_two_pow, hik]
    simp [hz]
  | true =>
    have hnz : x &&& 2 ^ k ≠ 0 := by
      intro hz
      have h2 := congrArg (fun y => Nat.testBit y k) hz
      simp [Nat.testBit_and, h, Nat.testBit_two_pow] at h2
    simp [hnz]

theorem length_setCoilBit (bytes : List Nat) (i : Nat) :
    (setCoilBit bytes i).length = bytes.length := by
  simp [setCoilBit]

theorem getD_setCoilBit (bytes : List Nat) (i j : Nat) :
    (setCoilBit bytes i).getD j 0 =
      if j = i / 8 ∧ j < bytes.length then
        bytes.getD j 0 ||| 1 <<< (i % 8)
      else bytes.getD j 0 := by
  unfold setCoilBit
  simp only [List.getD_eq_getElem?_getD, List.getElem?_set]
  by_cases hij : i / 8 = j
  · subst hij
    by_cases hlt : i / 8 < bytes.length
    · simp [hlt]
    · have hnone : bytes[i / 8]? = none := by
        simp only [List.getElem?_eq_none_iff]
        omega
      simp [hlt, hnone]
  · have hc : ¬ (j = i / 8 ∧ j < bytes.length) := fun h => hij h.1.symm
    simp [hij, hc]

theorem packCoilsLoop_length (rest : List Bool) :
    ∀ (start : Nat) (bytes : List Nat),
      (packCoilsLoop start rest bytes).length = bytes.length := by
  induction rest with
  | nil => intro start bytes; rfl
  | cons v tl ih =>
    intro start bytes
    show (packCoilsLoop (start + 1) tl _).length = _
    rw [ih]
    cases v <;> simp [length_setCoilBit]

theorem packCoilsLoop_testBit (rest : List Bool) :
    ∀ (start : Nat) (bytes : List Nat) (j k : Nat),
      (Nat.testBit ((packCoilsLoop start rest bytes).getD j 0) k = true ↔
        Nat.testBit (bytes.getD j 0) k = true ∨
          ∃ t, t < rest.length ∧ rest.getD t false = true ∧
            (start + t) / 8 = j ∧ (start + t) % 8 = k ∧ j < bytes.length) := by
  induction rest with
  | nil =>
    intro start bytes j k
    simp [packCoilsLoop]
  | cons v tl ih =>
    intro start bytes j k
    have hstep : packCoilsLoop start (v :: tl) bytes
        = packCoilsLoop (start + 1) tl (if v then setCoilBit bytes start else bytes) := rfl
    have hlen2 : (if v then setCoilBit bytes start else bytes).length = bytes.length := by
      cases v <;> simp [length_setCoilBit]
    rw [hstep, ih (start + 1) _ j k]
    constructor
    · rintro (hbit | ⟨t, ht, htv, hdiv, hmod, hjlen⟩)
      · cases v with
        | false => exact Or.inl hbit
        | true =>
          rw [if_pos rfl, getD_setCoilBit] at hbit
          by_cases hc : j = start / 8 ∧ j < bytes.length
          · rw [if_pos hc, Nat.testBit_or, Bool.or_eq_true] at hbit
            rcases hbit with hbit | hbit
            · exact Or.inl hbit
            · rw [Nat.shiftLeft_eq, one_mul, Nat.testBit_two_pow,
                decide_eq_true_eq] at hbit
              refine Or.inr ⟨0, by simp, rfl, ?_, ?_, hc.2⟩
              · simpa using hc.1.symm
              · simpa using hbit
          · rw [if_neg hc] at hbit
            exact Or.inl hbit
      · refine Or.inr ⟨t + 1, by simpa using ht, by simpa using htv, ?_, ?_, ?_⟩
        · rw [show start + (t + 1) = start + 1 + t by omega]
          exact hdiv
        · rw [show start + (t + 1) = start + 1 + t by omega]
          exact hmod
        · rw [hlen2] at hjlen
          exact hjlen
    · rintro (hbit | ⟨t, ht, htv, hdiv, hmod, hjlen⟩)
      · left
        cases v with
        | false => exact hbit
        | true =>
          rw [if_pos rfl, getD_setCoilBit]
          by_cases hc : j = start / 8 ∧ j < bytes.length
          · rw [if_pos hc, Nat.testBit_or, hbit]
            rfl
          · rw [if_neg hc]
            exact hbit
      · cases t with
        | zero =>
          left
          have hv : v = true := by simpa using htv
          subst hv
          rw [if_pos rfl, getD_setCoilBit]
          have hc : j = start / 8 ∧ j < bytes.length := by
            refine ⟨?_, hjlen⟩
            omega
          rw [if_pos hc, Nat.testBit_or, Nat.shiftLeft_eq, one_mul,
            Nat.testBit_two_pow]
          have hk : start % 8 = k := by omega
          simp [hk]
        | succ s =>
          right
          refine ⟨s, by simp only [List.length_cons] at ht; omega,
            by simpa using htv, ?_, ?_, ?_⟩
          · rw [show start + 1 + s = start + (s + 1) by omega]
            exact hdiv
          · rw [show start + 1 + s = start + (s + 1) by omega]
            exact hmod
          · rw [hlen2]
            exact hjlen

theorem packCoils_length (B : List Bool) :
    (packCoils B).length = (B.length + 7) / 8 := by
  unfold packCoils
  rw [packCoilsLoop_length]
  simp

theorem packCoils_testBit (B : List Bool) (i : Nat) (hi : i < B.length) :
    Nat.testBit ((packCoils B).getD (i / 8) 0) (i % 8) = B.getD i false := by
  have hz : i / 8 < (B.length + 7) / 8 := by omega
  have hrepl : (List.replicate ((B.length + 7) / 8) (0 : Nat)).getD (i / 8) 0 = 0 := by
    rcases Nat.lt_or_ge (i / 8) ((B.length + 7) / 8) with h | h
    · simp [List.getD_eq_getElem?_getD, List.getElem?_replicate, h]
    · omega
  have hmain := packCoilsLoop_testBit B 0 (List.replicate ((B.length + 7) / 8) 0)
    (i / 8) (i % 8)
  unfold packCoils
  cases hB : B.getD i false with
  | true =>
    rw [hmain]
    refine Or.inr ⟨i, hi, hB, by simp, by simp, ?_⟩
    simpa using hz
  | false =>
    cases htb : Nat.testBit ((packCoilsLoop 0 B
        (List.replicate ((B.length + 7) / 8) 0)).getD (i / 8) 0) (i % 8) with
    | false => rfl
    | true =>
      exfalso
      rcases hmain.mp htb with hbit | ⟨t, ht, htv, hdiv, hmod, _⟩
      · rw [hrepl, Nat.zero_testBit] at hbit
        exact Bool.noConfusion hbit
      · have hti : t = i := by omega
        subst hti
        rw [htv] at hB
        exact Bool.noConfusion hB

/-- Claim C2: for a boolean block `B` with `1 ≤ |B| ≤ 2000`, parsing a
response PDU whose byte-count field is `(|B|+7)/8` and whose data bytes are
the LSB-first packing of `B` (as emitted by `BuildWriteMultipleCoilsPDU` and
by the server read-coils builder) with quantity `|B|` returns exactly `B`;
moreover bit `i % 8` of packed byte `i / 8` equals element `i` of `B`. -/
theorem parseCoils_packCoils_roundtrip (fc : Nat) (B : List Bool)
    (h1 : 1 ≤ B.length) (h2 : B.length ≤ 2000) :
    ParseCoilsResponse (coilsResponsePDU fc B) B.length = Except.ok B ∧
    (∀ i, i < B.length →
      Nat.testBit ((packCoils B).getD (i / 8) 0) (i % 8) = B.getD i false) := by
  refine ⟨?_, fun i hi => packCoils_testBit B i hi⟩
  have hbc : (B.length + 7) / 8 % 256 = (B.length + 7) / 8 := by omega
  have hplen : (coilsResponsePDU fc B).length = 2 + (B.length + 7) / 8 := by
    simp [coilsResponsePDU, packCoils_length]
    omega
  have hg1 : (coilsResponsePDU fc B).getD 1 0 = (B.length + 7) / 8 := by
    simp [coilsResponsePDU, hbc]
  unfold ParseCoilsResponse
  rw [if_neg (by rw [hplen]; omega), hg1, if_neg (by simp [hplen])]
  congr 1
  apply List.ext_getElem
  · simp
  · intro i hi1 hi2
    simp only [List.getElem_map, List.getElem_range]
    have hilt : i < B.length := by simpa using hi1
    have hgd : (coilsResponsePDU fc B).getD (2 + i / 8) 0
        = (packCoils B).getD (i / 8) 0 := by
      rw [show 2 + i / 8 = i / 8 + 1 + 1 by omega]
      simp [coilsResponsePDU]
    rw [hgd, and_shift_bne, packCoils_testBit B i hilt]
    rw [List.getD_eq_getElem?_getD, List.getElem?_eq_getElem hilt]
    rfl

/-- Witness for claim C2 at `B = [true, false, true]`. -/
theorem parseCoils_packCoils_roundtrip_witness :
    ParseCoilsResponse (coilsResponsePDU 1 [true, false, true]) 3
      = Except.ok [true, false, true] :=
  (parseCoils_packCoils_roundtrip 1 [true, false, true]
    (by decide) (by decide)).1

/-- Error outcomes of the receive half of `TCPTransport.Send` in
`internal/transport/tcp.go`. -/
inductive TransportErr where
  | readHeader
  | invalidProtocolID
  | invalidLength
  | readPDU
deriving Repr, DecidableEq

/-- The receive half of `TCPTransport.Send` from `tcp.go`, applied to the
byte stream the peer delivers before EOF (the request has already been
written on an established connection): read exactly 7 header bytes; reject a
non-zero ProtocolID; reject a Length field outside `[1, 254]`; read exactly
`Length - 1` further bytes; return header and PDU concatenated.  The second
component records whether the socket is still open afterwards — every error
path calls `closeConnLocked`. -/
def TCPTransport.Send (stream : List Nat) :
    Except TransportErr (List Nat) × Bool :=
  if stream.length < 7 then
    (Except.error TransportErr.readHeader, false)
  else if stream.getD 2 0 * 256 + stream.getD 3 0 ≠ 0 then
    (Except.error TransportErr.invalidProtocolID, false)
  else if stream.getD 4 0 * 256 + stream.getD 5 0 < 1 ∨
      stream.getD 4 0 * 256 + stream.getD 5 0 > 254 then
    (Except.error TransportErr.invalidLength, false)
  else if (stream.drop 7).length < stream.getD 4 0 * 256 + stream.getD 5 0 - 1 then
    (Except.error TransportErr.readPDU, false)
  else
    (Except.ok (stream.take 7 ++
      (stream.drop 7).take (stream.getD 4 0 * 256 + stream.getD 5 0 - 1)), true)

/-- Counterexample for claim C4 as stated: a response header with
ProtocolID 0 and Length = 1 is accepted by the transport (it reads zero PDU
bytes and returns the 7 header bytes with the socket left open), while the
claim demands rejection of every Length outside `[2, 255]`. -/
theorem tcpSend_accepts_length_one :
    TCPTransport.Send [0, 0, 0, 0, 0, 1, 7]
      = (Except.ok [0, 0, 0, 0, 0, 1, 7], true) := rfl

/-- Claim C4 (amended): once the 7-byte response header is available, `Send`
rejects the transaction (error, socket closed) exactly when the ProtocolID
field is non-zero or the Length field is outside `[1, 254]`; for ProtocolID 0
and Length in `[1, 254]` it reads exactly `Length - 1` further bytes and
returns the header concatenated with them, leaving the socket open. -/
theorem tcpSend_recv_spec (stream : List Nat) (h7 : 7 ≤ stream.length) :
    (stream.getD 2 0 * 256 + stream.getD 3 0 ≠ 0 →
      TCPTransport.Send stream
        = (Except.error TransportErr.invalidProtocolID, false)) ∧
    (stream.getD 2 0 * 256 + stream.getD 3 0 = 0 →
      (stream.getD 4 0 * 256 + stream.getD 5 0 < 1 ∨
        254 < stream.getD 4 0 * 256 + stream.getD 5 0) →
      TCPTransport.Send stream
        = (Except.error TransportErr.invalidLength, false)) ∧
    (stream.getD 2 0 * 256 + stream.getD 3 0 = 0 →
      1 ≤ stream.getD 4 0 * 256 + stream.getD 5 0 →
      stream.getD 4 0 * 256 + stream.getD 5 0 ≤ 254 →
      stream.getD 4 0 * 256 + stream.getD 5 0 - 1 ≤ stream.length - 7 →
      TCPTransport.Send stream
        = (Except.ok (stream.take 7 ++
            (stream.drop 7).take (stream.getD 4 0 * 256 + stream.getD 5 0 - 1)),
            true) ∧
      ((stream.drop 7).take
          (stream.getD 4 0 * 256 + stream.getD 5 0 - 1)).length
        = stream.getD 4 0 * 256 + stream.getD 5 0 - 1) := by
  have hn7 : ¬ (stream.length < 7) := by omega
  refine ⟨?_, ?_, ?_⟩
  · intro hproto
    unfold TCPTransport.Send
    rw [if_neg hn7, if_pos hproto]
  · intro hproto hlen
    unfold TCPTransport.Send
    rw [if_neg hn7, if_neg (by omega), if_pos (by omega)]
  · intro hproto hlen1 hlen254 havail
    have hdroplen : (stream.drop 7).length = stream.length - 7 := by
      simp
    constructor
    · unfold TCPTransport.Send
      rw [if_neg hn7, if_neg (by omega), if_neg (by omega),
        if_neg (by omega)]
    · rw [List.length_take, hdroplen]
      omega

/-- Witness for claim C4 at a concrete stream: header with TX 0, ProtocolID
0, Length 2, unit 1, followed by the single PDU byte 0x42. -/
theorem tcpSend_recv_spec_witness :
    TCPTransport.Send [0, 0, 0, 0, 0, 2, 1, 66]
      = (Except.ok [0, 0, 0, 0, 0, 2, 1, 66], true) := by
  have h := (tcpSend_recv_spec [0, 0, 0, 0, 0, 2, 1, 66] (by decide)).2.2
    (by decide) (by decide) (by decide) (by decide)
  simpa using h.1

/-- Go error values as the client sees them: a Modbus exception
(`*ModbusError`), the two context errors, `net.Error` values, the sentinel
errors created with `errors.New`, and `fmt.Errorf("...: %w", inner)`
wrapping. -/
inductive GoError where
  | modbusError (fc ec : Nat)
  | canceled
  | deadlineExceeded
  | netError (msg : String)
  | sentinel (msg : String)
  | wrapped (msg : String) (inner : GoError)
deriving Repr, DecidableEq

/-- `errors.As(err, &modbusErr)`: walk the unwrap chain looking for a
`*ModbusError`. -/
def asModbusError : GoError → Bool
  | GoError.modbusError _ _ => true
  | GoError.wrapped _ inner => asModbusError inner
  | _ => false

/-- `errors.Is(err, context.Canceled) || errors.Is(err, context.DeadlineExceeded)`:
walk the unwrap chain looking for either context error.  (`ModbusError.Is`
only matches `*ModbusError` targets, so it never equates anything with the
context sentinels.) -/
def isContextError : GoError → Bool
  | GoError.canceled => true
  | GoError.deadlineExceeded => true
  | GoError.wrapped _ inner => isContextError inner
  | _ => false

/-- `isRetryableError` from the client: nil is not retryable, Modbus
exceptions are not retryable, context errors are not retryable, and every
other error is retryable (the source returns true both for `net.Error`
values and in the final catch-all). -/
def isRetryableError : Option GoError → Bool
  | none => false
  | some err =>
    if asModbusError err then false
    else if isContextError err then false
    else true

/-- The unwrap chain of an error: the error itself and everything reachable
through `Unwrap`. -/
def unwrapChain : GoError → List GoError
  | GoError.wrapped msg inner => GoError.wrapped msg inner :: unwrapChain inner
  | e => [e]

/-- Whether a single error value (ignoring wrapping) is a Modbus exception. -/
def isModbusNode : GoError → Bool
  | GoError.modbusError _ _ => true
  | _ => false

/-- Whether a single error value (ignoring wrapping) is a context
cancellation or deadline error. -/
def isContextNode : GoError → Bool
  | GoError.canceled => true
  | GoError.deadlineExceeded => true
  | _ => false

theorem asModbusError_iff (e : GoError) :
    asModbusError e = true ↔ ∃ x ∈ unwrapChain e, isModbusNode x = true := by
  induction e <;>
    simp [asModbusError, unwrapChain, isModbusNode, *]

theorem isContextError_iff (e : GoError) :
    isContextError e = true ↔ ∃ x ∈ unwrapChain e, isContextNode x = true := by
  induction e <;>
    simp [isContextError, unwrapChain, isContextNode, *]

/-- Claim C6: the retryability classifier returns false for every error that
is or wraps a Modbus exception, false for every error that is or wraps a
context cancellation/deadline error, and true for every other non-nil
error. -/
theorem isRetryableError_classification (e : GoError) :
    ((∃ x ∈ unwrapChain e, isModbusNode x = true) →
      isRetryableError (some e) = false) ∧
    ((∃ x ∈ unwrapChain e, isContextNode x = true) →
      isRetryableError (some e) = false) ∧
    ((∀ x ∈ unwrapChain e, isModbusNode x = false ∧ isContextNode x = false) →
      isRetryableError (some e) = true) := by
  refine ⟨?_, ?_, ?_⟩
  · intro h
    have ham : asModbusError e = true := (asModbusError_iff e).mpr h
    simp [isRetryableError, ham]
  · intro h
    have hctx : isContextError e = true := (isContextError_iff e).mpr h
    by_cases ham : asModbusError e = true <;>
      simp [isRetryableError, ham, hctx]
  · intro h
    have ham : asModbusError e = false := by
      rw [← Bool.not_eq_true, asModbusError_iff]
      rintro ⟨x, hx, hmod⟩
      rw [(h x hx).1] at hmod
      exact Bool.noConfusion hmod
    have hctx : isContextError e = false := by
      rw [← Bool.not_eq_true, isContextError_iff]
      rintro ⟨x, hx, hc⟩
      rw [(h x hx).2] at hc
      exact Bool.noConfusion hc
    simp [isRetryableError, ham, hctx]

/-- Witness for claim C6: a wrapped Modbus exception and a wrapped
cancellation are not retryable; a bare transport error is retryable. -/
theorem isRetryableError_classification_witness :
    isRetryableError (some (GoError.wrapped "request failed"
      (GoError.modbusError 3 2))) = false ∧
    isRetryableError (some (GoError.wrapped "send" GoError.canceled)) = false ∧
    isRetryableError (some (GoError.netError "connection reset")) = true := by
  refine ⟨?_, ?_, ?_⟩
  · exact (isRetryableError_classification _).1
      ⟨GoError.modbusError 3 2, by decide, by decide⟩
  · exact (isRetryableError_classification _).2.1
      ⟨GoError.canceled, by decide, by decide⟩
  · exact (isRetryableError_classification _).2.2 (by decide)

/-- The value carried by a `*ModbusError` (function code with the high bit
cleared, exception code). -/
structure ModbusErrorV where
  functionCode : Nat
  exceptionCode : Nat
deriving Repr, DecidableEq

/-- `IsExceptionResponse` from `protocol.go`:
`len(pdu) > 0 && (pdu[0] & 0x80) != 0`. -/
def IsExceptionResponse (pdu : List Nat) : Bool :=
  decide (0 < pdu.length) && (pdu.getD 0 0 &&& 128 != 0)

/-- `ParseExceptionResponse` from `protocol.go`: returns a nil
`*ModbusError` (modelled as `none`) when the PDU is shorter than 2 bytes,
otherwise `⟨pdu[0] & 0x7F, pdu[1]⟩`. -/
def ParseExceptionResponse (pdu : List Nat) : Option ModbusErrorV :=
  if pdu.length < 2 then none
  else some ⟨pdu.getD 0 0 &&& 127, pdu.getD 1 0⟩

/-- The exception branch of `Client.doSend`: when `IsExceptionResponse`
holds, doSend returns `ParseExceptionResponse(pdu)` as its error.  `some x`
means the branch is taken and the Go error interface holds the pointer `x`;
`some none` is the branch taken with a nil `*ModbusError` inside a non-nil
error interface. -/
def doSendExceptionBranch (pdu : List Nat) : Option (Option ModbusErrorV) :=
  if IsExceptionResponse pdu then some (ParseExceptionResponse pdu) else none

/-- Claim C10: a 1-byte response PDU whose byte has bit 7 set is classified
as an exception response, yet `ParseExceptionResponse` yields the nil
`*ModbusError`, so the exception branch of `doSend` returns a nil-valued
`ModbusError` rather than a populated exception error. -/
theorem one_byte_exception_nil_error (b : Nat) (hb : 128 ≤ b) (hb2 : b < 256) :
    IsExceptionResponse [b] = true ∧
    ParseExceptionResponse [b] = none ∧
    doSendExceptionBranch [b] = some none := by
  have hbit : b &&& 128 ≠ 0 := by
    have h7 : Nat.testBit b 7 = true := by
      rw [Nat.testBit_to_div_mod]
      have hdm : b / 128 % 2 = 1 := by omega
      simp [hdm]
    intro hz
    have h2 := congrArg (fun y => Nat.testBit y 7) hz
    simp [Nat.testBit_and, Nat.zero_testBit, h7,
      show Nat.testBit 128 7 = true from by decide] at h2
  have hexc : IsExceptionResponse [b] = true := by
    simp [IsExceptionResponse, hbit]
  have hparse : ParseExceptionResponse [b] = none := by
    simp [ParseExceptionResponse]
  exact ⟨hexc, hparse, by simp [doSendExceptionBranch, hexc, hparse]⟩

/-- Witness for claim C10 at the 1-byte PDU `[0x83]`. -/
theorem one_byte_exception_nil_error_witness :
    IsExceptionResponse [131] = true ∧
    ParseExceptionResponse [131] = none ∧
    doSendExceptionBranch [131] = some none :=
  one_byte_exception_nil_error 131 (by decide) (by decide)

/-- `buildException` from the server: `[fc | 0x80, exception code]`. -/
def buildExceptionPDU (fc ec : Nat) : List Nat :=
  [(fc ||| 128) % 256, ec % 256]

/-- `Server.handleWriteSingleCoil`: reject short PDUs, reject a value field
other than 0xFF00/0x0000 with IllegalDataValue, otherwise call the handler
(whose outcome is the `handlerErr` parameter) and on success echo the first
five request bytes into a freshly allocated response. -/
def handleWriteSingleCoil (handlerErr : Option GoError) (pdu : List Nat) :
    Except GoError (List Nat) :=
  if pdu.length < 5 then
    Except.ok (buildExceptionPDU 5 3)
  else if pdu.getD 3 0 * 256 + pdu.getD 4 0 ≠ 65280 ∧
      pdu.getD 3 0 * 256 + pdu.getD 4 0 ≠ 0 then
    Except.ok (buildExceptionPDU 5 3)
  else
    match handlerErr with
    | some e => Except.error e
    | none => Except.ok (pdu.take 5)

/-- `Server.handleWriteSingleRegister`: reject short PDUs, otherwise call
the handler and on success echo the first five request bytes into a freshly
allocated response. -/
def handleWriteSingleRegister (handlerErr : Option GoError) (pdu : List Nat) :
    Except GoError (List Nat) :=
  if pdu.length < 5 then
    Except.ok (buildExceptionPDU 6 3)
  else
    match handlerErr with
    | some e => Except.error e
    | none => Except.ok (pdu.take 5)

/-- Claim C9: for every 5-byte WriteSingleCoil request whose value field is
exactly 0x0000 or 0xFF00, and every 5-byte WriteSingleRegister request, a
successful handler call makes the dispatch layer answer with a response PDU
byte-wise equal to the request PDU (the source allocates a fresh 5-byte
slice and copies, so the response never aliases the request buffer). -/
theorem write_single_echo (pdu : List Nat) (h5 : pdu.length = 5) :
    ((pdu.getD 3 0 * 256 + pdu.getD 4 0 = 65280 ∨
        pdu.getD 3 0 * 256 + pdu.getD 4 0 = 0) →
      handleWriteSingleCoil none pdu = Except.ok pdu) ∧
    handleWriteSingleRegister none pdu = Except.ok pdu := by
  have htake : pdu.take 5 = pdu := by
    rw [← h5]
    simp
  constructor
  · intro hval
    unfold handleWriteSingleCoil
    rw [if_neg (by omega), if_neg (by omega), htake]
  · unfold handleWriteSingleRegister
    rw [if_neg (by omega), htake]

/-- Witness for claim C9 at the PDU `[0x05, 0x00, 0x05, 0xFF, 0x00]`. -/
theorem write_single_echo_witness :
    handleWriteSingleCoil none [5, 0, 5, 255, 0]
      = Except.ok [5, 0, 5, 255, 0] ∧
    handleWriteSingleRegister none [5, 0, 5, 255, 0]
      = Except.ok [5, 0, 5, 255, 0] := by
  have h := write_single_echo [5, 0, 5, 255, 0] (by decide)
  exact ⟨h.1 (by decide), h.2⟩

/-- Client-side send errors relevant to a closed client. -/
inductive SendErr where
  | notConnected
  | connectionClosed
  | maxRetriesExceeded (last : Option SendErr)
deriving Repr

/-- The retry loop of `Client.sendWithUnit` specialised to a client on which
`Close` has run (`closed = true`, `state = Disconnected`, `closeCh`
closed, context still live).  In that state `doSend` always fails with
`ErrNotConnected` (state ≠ Connected) — a retryable error — and
`reconnect` always returns `ErrConnectionClosed` from its `closeCh` select
arm, which the loop stores in `lastErr` and continues.  `rem` is the number
of remaining iterations, `attempt` the iteration index. -/
def sendClosedGo (auto : Bool) : Nat → Nat → Option SendErr → SendErr
  | 0, _, lastErr => SendErr.maxRetriesExceeded lastErr
  | rem + 1, attempt, _lastErr =>
    if attempt = 0 then
      if auto = false then SendErr.notConnected
      else sendClosedGo auto rem (attempt + 1) (some SendErr.notConnected)
    else
      sendClosedGo auto rem (attempt + 1) (some SendErr.connectionClosed)

/-- `Client.sendWithUnit` on a closed client: `maxRetries` attempts when
`auto_reconnect` is on, a single attempt otherwise. -/
def sendWithUnitClosed (auto : Bool) (maxRetries : Nat) : SendErr :=
  sendClosedGo auto (if auto then maxRetries else 1) 0 none

theorem sendClosedGo_auto_tail (rem : Nat) :
    ∀ (attempt : Nat) (lastErr : Option SendErr),
      sendClosedGo true rem (attempt + 1) lastErr
        = SendErr.maxRetriesExceeded
            (if rem = 0 then lastErr else some SendErr.connectionClosed) := by
  induction rem with
  | zero => intro attempt lastErr; rfl
  | succ n ih =>
    intro attempt lastErr
    show sendClosedGo true n (attempt + 1 + 1) (some SendErr.connectionClosed) = _
    rw [ih (attempt + 1) (some SendErr.connectionClosed)]
    cases n <;> simp

/-- Counterexample for claim C5 as stated: a request on a closed client does
not return the ConnectionClosed error — without auto-reconnect it returns
NotConnected, and with auto-reconnect it returns MaxRetriesExceeded. -/
theorem closed_client_send_counterexample :
    sendWithUnitClosed false 3 = SendErr.notConnected ∧
    sendWithUnitClosed true 3
      = SendErr.maxRetriesExceeded (some SendErr.connectionClosed) ∧
    sendWithUnitClosed false 3 ≠ SendErr.connectionClosed ∧
    sendWithUnitClosed true 3 ≠ SendErr.connectionClosed := by
  refine ⟨rfl, rfl, ?_, ?_⟩
  · rw [show sendWithUnitClosed false 3 = SendErr.notConnected from rfl]
    intro h
    exact SendErr.noConfusion h
  · rw [show sendWithUnitClosed true 3
        = SendErr.maxRetriesExceeded (some SendErr.connectionClosed) from rfl]
    intro h
    exact SendErr.noConfusion h

/-- Claim C5 (amended): on a closed client every request fails, but never
with the bare ConnectionClosed error: with auto-reconnect off it returns
NotConnected (`doSend` sees state ≠ Connected; `sendWithUnit` never checks
the closed flag), and with auto-reconnect on it returns MaxRetriesExceeded
wrapping the ConnectionClosed produced by the aborted reconnect (wrapping
NotConnected when `max_retries ≤ 1`). -/
theorem sendWithUnitClosed_spec (auto : Bool) (maxRetries : Nat) :
    (auto = false → sendWithUnitClosed auto maxRetries = SendErr.notConnected) ∧
    (auto = true → sendWithUnitClosed auto maxRetries
      = SendErr.maxRetriesExceeded
          (if maxRetries = 0 then none
           else if maxRetries = 1 then some SendErr.notConnected
           else some SendErr.connectionClosed)) ∧
    sendWithUnitClosed auto maxRetries ≠ SendErr.connectionClosed := by
  cases auto with
  | false =>
    have hval : sendWithUnitClosed false maxRetries = SendErr.notConnected := rfl
    refine ⟨fun _ => hval, fun h => Bool.noConfusion h, ?_⟩
    rw [hval]
    intro h
    exact SendErr.noConfusion h
  | true =>
    have hshape : sendWithUnitClosed true maxRetries
        = SendErr.maxRetriesExceeded
            (if maxRetries = 0 then none
             else if maxRetries = 1 then some SendErr.notConnected
             else some SendErr.connectionClosed) := by
      match maxRetries with
      | 0 => rfl
      | 1 => rfl
      | n + 2 =>
        show sendClosedGo true (n + 2) 0 none = _
        rw [show sendClosedGo true (n + 2) 0 none
            = sendClosedGo true (n + 1) 1 (some SendErr.notConnected) from rfl]
        rw [sendClosedGo_auto_tail (n + 1) 0 (some SendErr.notConnected)]
        simp
    refine ⟨fun h => Bool.noConfusion h, fun _ => hshape, ?_⟩
    rw [hshape]
    intro h
    exact SendErr.noConfusion h

/-- Witness for claim C5 (amended) at `auto_reconnect = true`,
`max_retries = 3`. -/
theorem sendWithUnitClosed_spec_witness :
    sendWithUnitClosed true 3
      = SendErr.maxRetriesExceeded (some SendErr.connectionClosed) := by
  have h := (sendWithUnitClosed_spec true 3).2.1 rfl
  simpa using h

/-- Abstract state of `Pool`: the `created` counter (Go `int`, may go
negative), the number of checked-out clients, the idle queue (one flag per
entry: `true` = still Connected and within `maxIdleTime`), and the pool
size. -/
structure PoolState where
  created : Int
  inUse : Nat
  idle : List Bool
  size : Nat
deriving Repr, DecidableEq

/-- The completed operation paths of `Pool.Get`, `Pool.Put`,
`PooledClient.ForceClose`/`Discard` and the passage of idle time, from
`pool.go`.  Each event is one code path run to completion; `none` means the
path is not enabled in the given state. -/
inductive PoolEvent where
  | getHitFresh
  | getHitStaleCreateOk
  | getHitStaleCreateFail
  | getMissCreateOk
  | getMissCreateFail
  | putFresh
  | putDisconnected
  | discard
  | ageAll
deriving Repr, DecidableEq

/-- One pool transition.  `getHitStaleCreateOk` mirrors the `Get` hit path
for an invalid/stale entry: `Close` the old client, `decrementCreated`, then
`createAndConnect` — which never increments `created` and on failure
(`getHitStaleCreateFail`) decrements it a second time. -/
def poolStep (s : PoolState) : PoolEvent → Option PoolState
  | PoolEvent.getHitFresh =>
    match s.idle with
    | true :: rest => some { s with idle := rest, inUse := s.inUse + 1 }
    | _ => none
  | PoolEvent.getHitStaleCreateOk =>
    match s.idle with
    | false :: rest =>
      some { s with idle := rest, created := s.created - 1, inUse := s.inUse + 1 }
    | _ => none
  | PoolEvent.getHitStaleCreateFail =>
    match s.idle with
    | false :: rest => some { s with idle := rest, created := s.created - 2 }
    | _ => none
  | PoolEvent.getMissCreateOk =>
    if s.idle.isEmpty ∧ s.created < (s.size : Int) then
      some { s with created := s.created + 1, inUse := s.inUse + 1 }
    else none
  | PoolEvent.getMissCreateFail =>
    if s.idle.isEmpty ∧ s.created < (s.size : Int) then some s else none
  | PoolEvent.putFresh =>
    if 1 ≤ s.inUse ∧ s.idle.length < s.size then
      some { s with inUse := s.inUse - 1, idle := s.idle ++ [true] }
    else none
  | PoolEvent.putDisconnected =>
    if 1 ≤ s.inUse then
      some { s with inUse := s.inUse - 1, created := s.created - 1 }
    else none
  | PoolEvent.discard =>
    if 1 ≤ s.inUse then
      some { s with inUse := s.inUse - 1, created := s.created - 1 }
    else none
  | PoolEvent.ageAll =>
    some { s with idle := s.idle.map (fun _ => false) }

/-- A fresh pool of the given size. -/
def initPool (size : Nat) : PoolState :=
  { created := 0, inUse := 0, idle := [], size := size }

/-- Run a sequence of completed pool operations from a fresh pool. -/
def poolRun (size : Nat) (events : List PoolEvent) : Option PoolState :=
  events.foldl (fun acc ev => acc.bind (fun s => poolStep s ev)) (some (initPool size))

/-- The counting invariant of claim C7, with no creation in flight:
`created = inUse + |idle|`. -/
def poolBalanced (s : PoolState) : Prop :=
  s.created = (s.inUse : Int) + (s.idle.length : Int)

/-- Claim C7 demonstration: the sequence Get-miss (create), Put, idle-age,
Get-hit-on-stale-entry leaves `created = 0` with one client checked out
(the replacement client is created without an increment), violating
`created = inUse + idle`; and if the replacement creation fails, `created`
is decremented twice for the same closed client, ending at `-1` with no
clients at all. -/
theorem pool_created_accounting_bug :
    poolRun 1 [PoolEvent.getMissCreateOk, PoolEvent.putFresh, PoolEvent.ageAll,
        PoolEvent.getHitStaleCreateOk]
      = some { created := 0, inUse := 1, idle := [], size := 1 } ∧
    ¬ poolBalanced { created := 0, inUse := 1, idle := [], size := 1 } ∧
    poolRun 1 [PoolEvent.getMissCreateOk, PoolEvent.putFresh, PoolEvent.ageAll,
        PoolEvent.getHitStaleCreateFail]
      = some { created := -1, inUse := 0, idle := [], size := 1 } ∧
    ¬ poolBalanced { created := -1, inUse := 0, idle := [], size := 1 } := by
  refine ⟨rfl, ?_, rfl, ?_⟩ <;> simp [poolBalanced]

end ModbusProof
